import Mathlib

/-!
Verification of the swindon pub/sub edge server core against its
natural-language specification.  The definitions below are shallow
embeddings of the Rust sources under `src/`:

* `src/chat/cid.rs`               — `Cid`, `serialize_cid`, `Cid::from_str`
* `src/chat/replication/session.rs` — `Watcher::local_send`, `Watcher::reconnect`
* `src/chat/listener/codec.rs`    — `Handler::dispatch`, `Handler::headers_received`,
                                    `Request::data_received`, `Request::start_response`
* `src/chat/processor/connection.rs` — `NewConnection::associate`
* `src/handlers/swindon_chat.rs`  — `choose_proto`, `serve`, `WebsockReply::hijack`
* `src/handlers/files.rs`         — `from_hex`, `decode_component`, `path`

Machine strings are modelled as `List Char` (HTTP routing) or as raw byte
lists `List Nat` (the byte-level file-path sanitiser and the `u64` decimal
codec); `u64` values are `Nat` with explicit `< 2 ^ 64` bounds; external
JSON payloads (`serde_json`) are carried opaquely as their serialized text.
-/

namespace Swindon

/-- Node identity (`ServerId`, runtime.rs, not in src): an opaque
comparable id, modelled as `Nat`. -/
abbrev ServerId := Nat

/-- `struct Cid(u64)` from `src/chat/cid.rs`.  The `u64` payload is a `Nat`;
theorems that need the machine bound carry `val < 2 ^ 64` explicitly. -/
structure Cid where
  val : Nat
deriving DecidableEq, Repr

/-- `PubCid(Cid, ServerId)`: a `Cid` qualified by the owning node's
`ServerId` (declared in the chat module, used by `codec.rs`; the spec:
"a `PubCid` is the pair `(Cid, ServerId)`"). -/
structure PubCid where
  cid : Cid
  server_id : ServerId
deriving DecidableEq, Repr

/-- Opaque JSON payload (`Arc<serde_json::Value>`), carried as its
serialized text. -/
abbrev JsonV := String

/-- Opaque lattice `Delta` payload (`chat::processor::Delta`, parsed by
serde in `codec.rs` and carried through unchanged), modelled as its
serialized text. -/
abbrev Delta := String

/-- Interned `SessionId` (opaque string per the spec). -/
abbrev SessionId := String

/-- Processor `Action` variants, exactly as constructed in
`src/chat/listener/codec.rs` (`data_received`). -/
inductive Action where
  | subscribe (conn_id : Cid) (topic : String)
  | unsubscribe (conn_id : Cid) (topic : String)
  | publish (topic : String) (data : JsonV)
  | lattice (ns : String) (delta : Delta)
  | attach (ns : String) (conn_id : Cid)
  | detach (ns : String) (conn_id : Cid)
  | attachUsers (conn_id : Cid) (list : List SessionId)
  | updateUsers (session_id : SessionId) (list : List SessionId)
  | detachUsers (conn_id : Cid)
deriving DecidableEq, Repr

/-- Replication `RemoteAction` variants, with the field layout used at
every construction site in `src/chat/listener/codec.rs` and matched in
`src/chat/replication/session.rs`. -/
inductive RemoteAction where
  | subscribe (conn_id : Cid) (server_id : ServerId) (topic : String)
  | unsubscribe (conn_id : Cid) (server_id : ServerId) (topic : String)
  | publish (topic : String) (data : JsonV)
  | lattice (ns : String) (delta : Delta)
  | attach (ns : String) (conn_id : Cid) (server_id : ServerId)
  | detach (ns : String) (conn_id : Cid) (server_id : ServerId)
  | attachUsers (conn_id : Cid) (server_id : ServerId) (list : List SessionId)
  | updateUsers (session_id : SessionId) (list : List SessionId)
  | detachUsers (conn_id : Cid) (server_id : ServerId)
deriving DecidableEq, Repr

/-- Replication envelope `Message(SessionPoolName, RemoteAction)`
(`src/chat/replication/action.rs`, used by `session.rs`). -/
structure Message where
  pool : String
  action : RemoteAction
deriving DecidableEq, Repr

/-- `Watcher::local_send` from `src/chat/replication/session.rs` lines
138-153: the incoming replication filter.  Returns the `(pool, action)`
handed to `self.processor.send`, or `none` when the action is skipped.
The source guard matches `Subscribe | Unsubscribe | Attach | Detach`
with `server_id` different from the local one. -/
def localSend (selfId : ServerId) (m : Message) : Option Message :=
  match m.action with
  | .subscribe _ server_id _ =>
      if selfId ≠ server_id then none else some m
  | .unsubscribe _ server_id _ =>
      if selfId ≠ server_id then none else some m
  | .attach _ _ server_id =>
      if selfId ≠ server_id then none else some m
  | .detach _ _ server_id =>
      if selfId ≠ server_id then none else some m
  | _ => some m

/-- The parsed `Route` of `src/chat/listener/codec.rs` (lines 38-57). -/
inductive Route where
  | subscribe (cid : PubCid) (topic : String)
  | unsubscribe (cid : PubCid) (topic : String)
  | publish (topic : String)
  | latticeSubscribe (cid : PubCid) (ns : String)
  | detach (cid : PubCid) (ns : String)
  | usersSubscribe (cid : PubCid)
  | usersUpdate (session_id : SessionId)
  | usersDetach (cid : PubCid)
  | lattice (ns : String)
deriving DecidableEq, Repr

/-- `Route::has_body` (codec.rs lines 60-73). -/
def Route.hasBody : Route → Bool
  | .subscribe .. => false
  | .unsubscribe .. => false
  | .publish .. => true
  | .latticeSubscribe .. => true
  | .detach .. => false
  | .usersSubscribe .. => true
  | .usersUpdate .. => true
  | .usersDetach .. => false
  | .lattice .. => true

/-- The codec `State` (codec.rs lines 27-31); HTTP statuses are their
numeric codes (`tk_http::Status`). -/
inductive StateQ where
  | query (r : Route)
  | done
  | error (status : Nat)
deriving DecidableEq, Repr

/-- `str::splitn(2, sep)`: the part before the first separator, and the
remainder after it when the separator occurs. -/
def splitFirst (sep : Char) : List Char → List Char × Option (List Char)
  | [] => ([], none)
  | c :: rest =>
      if c = sep then ([], some rest)
      else
        let r := splitFirst sep rest
        (c :: r.1, r.2)

/-- `str::split(sep)`: all parts (at least one, possibly empty). -/
def splitAllChar (sep : Char) : List Char → List (List Char)
  | [] => [[]]
  | c :: rest =>
      let r := splitAllChar sep rest
      if c = sep then [] :: r
      else
        match r with
        | x :: xs => (c :: x) :: xs
        | [] => [[c]]

/-- `str::replace("/", ".")` for single characters. -/
def replSlashDot (l : List Char) : List Char :=
  l.map (fun c => if c = '/' then '.' else c)

/-- Modelled from the spec: the interned `Topic`/`Namespace` `FromStr`
(`src/intern.rs`, not in src): a dotted path, at least one component,
each component non-empty and dot-free, total length at most 127 bytes
("same shape as `Topic`").  Reserved-namespace rejection is *not* done
here: `codec.rs` checks `starts_with("swindon.")` on parsed values, so
the parser itself must accept them. -/
def parseAtom (l : List Char) : Option String :=
  let comps := splitAllChar '.' l
  if l.length ≤ 127 ∧ comps.all (fun c => !c.isEmpty) then some ⟨l⟩ else none

/-- The topic/namespace extraction used throughout `Handler::dispatch`:
`if !x.contains('.') { x.replace("/", ".").parse().ok() } else { None }`. -/
def parseTopicStr (x : List Char) : Option String :=
  if x.contains '.' then none else parseAtom (replSlashDot x)

/-- `str::starts_with` on whole strings. -/
def strStarts (n : String) (p : String) : Bool :=
  p.data.isPrefixOf n.data

/-- Modelled from the spec: the interned `SessionId` `FromStr`
(`src/intern.rs`, not in src); a `SessionId` is an opaque string. -/
def parseSessionIdStr (l : List Char) : Option SessionId :=
  some ⟨l⟩

/-- `Handler::dispatch` (codec.rs lines 183-288): URL path (after the
`/v1/` prefix) and method to `State`.  `PubCid`'s `FromStr` is not in
src, so it is passed in as `parseCid`.  Statuses: 403 Forbidden,
404 NotFound. -/
def dispatch (parseCid : List Char → Option PubCid) (method : String)
    (path : List Char) : StateQ :=
  let hd := splitFirst '/' path
  let head := hd.1
  let tail := hd.2
  if head = "connection".data then
    match tail with
    | some t =>
      let p1 := splitFirst '/' t
      let cid := parseCid p1.1
      let mt : Option (List Char) × Option (List Char) :=
        match p1.2 with
        | none => (none, none)
        | some r => let p2 := splitFirst '/' r; (some p2.1, p2.2)
      match mt.1 with
      | some middle =>
        if middle = "subscriptions".data then
          let topic := mt.2.bind parseTopicStr
          match method, cid, topic with
          | "PUT", some c, some tp => .query (.subscribe c tp)
          | "DELETE", some c, some tp => .query (.unsubscribe c tp)
          | _, _, _ => .error 404
        else if middle = "lattices".data then
          let ns := mt.2.bind parseTopicStr
          match ns with
          | some n =>
            if strStarts n "swindon." then .error 403
            else
              match method, cid with
              | "PUT", some c => .query (.latticeSubscribe c n)
              | "DELETE", some c => .query (.detach c n)
              | _, _ => .error 404
          | none => .error 404
        else if middle = "users".data then
          match method, cid with
          | "PUT", some c => .query (.usersSubscribe c)
          | "DELETE", some c => .query (.usersDetach c)
          | _, _ => .error 404
        else .error 404
      | none => .error 404
    | none => .error 404
  else if method = "POST" ∧ head = "publish".data then
    match tail with
    | some t =>
      match parseTopicStr t with
      | some tp => .query (.publish tp)
      | none => .error 404
    | none => .error 404
  else if method = "POST" ∧ head = "lattice".data then
    match tail with
    | some t =>
      match parseTopicStr t with
      | some n => .query (.lattice n)
      | none => .error 404
    | none => .error 404
  else if method = "PUT" ∧ head = "user".data then
    match tail with
    | some t =>
      let p1 := splitFirst '/' t
      let sid := parseSessionIdStr p1.1
      let page : Option (List Char) :=
        match p1.2 with
        | none => none
        | some r => some (splitFirst '/' r).1
      match page, sid with
      | some pg, some s =>
          if pg = "users".data then .query (.usersUpdate s) else .error 404
      | _, _ => .error 404
    | none => .error 404
  else .error 404

/-- Modelled from the spec: `check_json` over the Content-Type header
(`src/chat/content_type.rs`, not in src) classifies it as valid JSON,
invalid, or absent; this classification is the input here. -/
inductive ContentType where
  | absent
  | invalid
  | valid
deriving DecidableEq, Repr

/-- Outcome of the Content-Type gate: proceed (with or without the
deprecation warning being logged) or reject with 400. -/
inductive CTGate where
  | proceed (warned : Bool)
  | reject
deriving DecidableEq, Repr

/-- The Content-Type gate of `Handler::headers_received` (codec.rs lines
130-152): `weak_content_type.unwrap_or(false)`; `Absent | Invalid` with
the weak switch warns and proceeds; `Absent` or `Invalid` otherwise is
400; `Valid` proceeds. -/
def contentGate (weak : Option Bool) (ct : ContentType) : CTGate :=
  let weakType := weak.getD false
  match ct with
  | .absent => if weakType then .proceed true else .reject
  | .invalid => if weakType then .proceed true else .reject
  | .valid => .proceed false

/-- `Handler::headers_received` (codec.rs lines 118-181): requires the
`/v1/` prefix, dispatches, and applies the Content-Type gate to bodied
routes. -/
def headersReceived (parseCid : List Char → Option PubCid)
    (weak : Option Bool) (ct : ContentType) (method : String)
    (path : Option (List Char)) : StateQ :=
  match path with
  | none => .error 400
  | some p =>
    if "/v1/".data.isPrefixOf p then
      match dispatch parseCid method (p.drop 4) with
      | .query q =>
          if q.hasBody then
            match contentGate weak ct with
            | .proceed _ => .query q
            | .reject => .error 400
          else .query q
      | st => st
    else .error 404

/-- The request body as seen through the external parsers used by
`data_received`: its byte length, and the results of `serde_json`
deserialization as generic JSON, as a lattice `Delta`, and as a
`Vec<SessionId>` (the serde parsers are external library code; their
outcomes are inputs of the model). -/
structure Body where
  len : Nat
  asJson : Option JsonV
  asDelta : Option Delta
  asSessions : Option (List SessionId)
deriving Repr

/-- `Request::data_received` (codec.rs lines 296-523): given this node's
`server_id` and the codec state, produce the new state, the local
`Action`s sent to the Processor, and the `RemoteAction`s sent to the
replication fabric (each list in send order).  `State::Done` is
`unreachable!()` in the source (the codec is fed exactly one body). -/
def dataReceived (myId : ServerId) (st : StateQ) (b : Body) :
    StateQ × List Action × List RemoteAction :=
  match st with
  | .query (.subscribe ⟨c, sid⟩ topic) =>
      if b.len = 0 then
        (.done,
         if sid = myId then [.subscribe c topic] else [],
         [.subscribe c sid topic])
      else (.error 400, [], [])
  | .query (.unsubscribe ⟨c, sid⟩ topic) =>
      if b.len = 0 then
        (.done,
         if sid = myId then [.unsubscribe c topic] else [],
         [.unsubscribe c sid topic])
      else (.error 400, [], [])
  | .query (.publish topic) =>
      match b.asJson with
      | some j => (.done, [.publish topic j], [.publish topic j])
      | none => (.error 400, [], [])
  | .query (.latticeSubscribe ⟨c, sid⟩ ns) =>
      match b.asDelta with
      | some d =>
          (.done,
           [.lattice ns d] ++ (if sid = myId then [.attach ns c] else []),
           [.lattice ns d, .attach ns c sid])
      | none => (.error 400, [], [])
  | .query (.detach ⟨c, sid⟩ ns) =>
      (.done,
       if sid = myId then [.detach ns c] else [],
       [.detach ns c sid])
  | .query (.lattice ns) =>
      match b.asDelta with
      | some d => (.done, [.lattice ns d], [.lattice ns d])
      | none => (.error 400, [], [])
  | .query (.usersSubscribe ⟨c, sid⟩) =>
      match b.asSessions with
      | some l =>
          (.done,
           if sid = myId then [.attachUsers c l] else [],
           [.attachUsers c sid l])
      | none => (.error 400, [], [])
  | .query (.usersUpdate s) =>
      match b.asSessions with
      | some l => (.done, [.updateUsers s l], [.updateUsers s l])
      | none => (.error 400, [], [])
  | .query (.usersDetach ⟨c, sid⟩) =>
      (.done,
       if sid = myId then [.detachUsers c] else [],
       [.detachUsers c sid])
  | .done => (.done, [], [])
  | .error e => (.error e, [], [])

/-- `Request::start_response` (codec.rs lines 524-538): the HTTP status
actually sent — the stored error status, or 204 No Content. -/
def responseStatus : StateQ → Nat
  | .error s => s
  | _ => 204

/-- The `PubCid` carried by a route, when it is a connection-scoped
route. -/
def routePubCid : Route → Option PubCid
  | .subscribe c _ => some c
  | .unsubscribe c _ => some c
  | .latticeSubscribe c _ => some c
  | .detach c _ => some c
  | .usersSubscribe c => some c
  | .usersDetach c => some c
  | _ => none

/-- Connection-scoped Processor actions: those that address one `Cid`. -/
def Action.connScoped : Action → Bool
  | .subscribe .. => true
  | .unsubscribe .. => true
  | .attach .. => true
  | .detach .. => true
  | .attachUsers .. => true
  | .detachUsers .. => true
  | _ => false

/-- `CloseReason` from the chat module (carried by `StopSock`). -/
inductive CloseReason where
  | overloaded
  | authTimeout
  | poolStopped
deriving DecidableEq, Repr

/-- `MessageError` from the chat module, as matched in
`src/handlers/swindon_chat.rs` (`HttpError(status, Option<Json>)` plus
the other variants, collapsed into `otherErr`). -/
inductive MessageError where
  | httpError (status : Nat) (data : Option JsonV)
  | otherErr
deriving DecidableEq, Repr

/-- `ConnectionMessage` variants used across `connection.rs` and
`swindon_chat.rs`: `Hello`, `Publish`, `Lattice`, `FatalError`,
`StopSock` (the lattice diff payload is carried opaquely). -/
inductive ConnMsg where
  | hello (session_id : SessionId) (data : JsonV)
  | publish (topic : String) (data : JsonV)
  | lattice (ns : String) (update : JsonV)
  | fatalError (err : MessageError)
  | stopSock (reason : CloseReason)
deriving DecidableEq, Repr

/-- Modelled from the spec: `good_status` (chat module, not in src)
accepts exactly the valid 4xx/5xx HTTP statuses. -/
def goodStatus (s : Nat) : Bool :=
  400 ≤ s ∧ s < 600

/-- What `rx.into_future()` yields for the Processor's first message in
`WebsockReply::hijack`: a message, a closed stream (`Ok(None)`), or a
stream error (`Err(_)`, logged as "pool closed"). -/
inductive RecvResult where
  | msg (m : ConnMsg)
  | closed
  | failed
deriving DecidableEq, Repr

/-- Outcome of `WebsockReply::hijack`'s first-message dispatch
(swindon_chat.rs lines 100-193): start the normal websocket loop, close
the socket with a code and payload, or `panic!`.  The fatal-error and
pool-closed branches also send a `fatal_error` text frame before
closing; only the close code and payload are modelled. -/
inductive HijackOutcome where
  | startLoop (session_id : SessionId) (data : JsonV)
  | closeSock (code : Nat) (payload : String)
  | panicked
deriving DecidableEq, Repr

/-- `WebsockReply::hijack`'s dispatch on the Processor's first message
(swindon_chat.rs lines 100-193).  `Hello` starts the loop;
`FatalError(HttpError(s, data))` with `good_status(s)` closes with
`4000 + s` and payload `"backend_error"`, any other error closes with
`4500`; any other message — including a cleanly closed channel —
hits `panic!("Received {:?} instead of Hello", msg)`; a stream error
closes with `1011` and an empty payload. -/
def hijackFirst : RecvResult → HijackOutcome
  | .msg (.hello sid d) => .startLoop sid d
  | .msg (.fatalError e) =>
      .closeSock
        (match e with
         | .httpError s _ => if goodStatus s then 4000 + s else 4500
         | .otherErr => 4500)
        "backend_error"
  | .msg _ => .panicked
  | .closed => .panicked
  | .failed => .closeSock 1011 ""

/-- Is the message a `Hello`? -/
def ConnMsg.isHello : ConnMsg → Bool
  | .hello .. => true
  | _ => false

/-- Is the message a `FatalError`? -/
def ConnMsg.isFatal : ConnMsg → Bool
  | .fatalError .. => true
  | _ => false

/-- The close code of a `closeSock` outcome, if any. -/
def closeCode : HijackOutcome → Option Nat
  | .closeSock c _ => some c
  | _ => none

/-- `choose_proto` (swindon_chat.rs lines 197-211): `Err(())` when no
subprotocol is offered and the config forbids empty; the selected
subprotocol (or none) otherwise. -/
def chooseProto (protocols : List String) (allowEmpty : Bool) :
    Option (Option String) :=
  if protocols.length = 0 then
    if allowEmpty then some none else none
  else if protocols.any (fun x => x == "v1.swindon-lattice+json") then
    some (some "v1.swindon-lattice+json")
  else some none

/-- Result of `serve`'s websocket-upgrade branch (swindon_chat.rs lines
216-236): proceed with the upgrade (carrying the subprotocol chosen) or
serve an error page. -/
inductive ServeResult where
  | upgrade (proto : Option String)
  | errorPage (status : Nat)
deriving DecidableEq, Repr

/-- `serve` on a well-formed websocket upgrade request (swindon_chat.rs
lines 216-236): `choose_proto` failure serves 400 Bad Request,
success proceeds with the chosen subprotocol. -/
def serveWs (protocols : List String) (allowEmpty : Bool) : ServeResult :=
  match chooseProto protocols allowEmpty with
  | some p => .upgrade p
  | none => .errorPage 400

/-- `NewConnection` (src/chat/processor/connection.rs lines 12-19).  The
`ConnectionSender` channel is modelled by the list of messages sent
through it so far, in order. -/
structure NewConnection where
  cid : Cid
  topics : List String
  lattices : List String
  users_lattice : List SessionId
  message_buffer : List (String × JsonV)
  channel : List ConnMsg
deriving Repr

/-- `Connection` (connection.rs lines 22-29). -/
structure Connection where
  cid : Cid
  session_id : SessionId
  topics : List String
  lattices : List String
  users_lattice : Bool
  channel : List ConnMsg
deriving Repr

/-- `Connection::message` (connection.rs lines 70-72): send
`ConnectionMessage::Publish(topic, data)` on the channel. -/
def Connection.message (c : Connection) (topic : String) (data : JsonV) :
    Connection :=
  { c with channel := c.channel ++ [.publish topic data] }

/-- `NewConnection::associate` (connection.rs lines 44-59): promote to
`Connection` keeping cid, topics, lattices and channel, set the
`users_lattice` flag from the pending watch set, flush the buffered
messages through `Connection::message`, and hand back the watch set. -/
def NewConnection.associate (nc : NewConnection) (session_id : SessionId) :
    Connection × List SessionId :=
  let conn : Connection :=
    { cid := nc.cid
      session_id := session_id
      topics := nc.topics
      lattices := nc.lattices
      users_lattice := decide (0 < nc.users_lattice.length)
      channel := nc.channel }
  (nc.message_buffer.foldl (fun c td => c.message td.1 td.2) conn,
   nc.users_lattice)

/-- Replication peer `State` (src/chat/replication/session.rs lines
44-53); `Instant`s are `Nat` ticks. -/
inductive PeerState where
  | connecting (deadline : Nat)
  | connected (sid : ServerId)
deriving DecidableEq, Repr

/-- The Watcher's `peers: HashMap<String, State>`, modelled as an
association list with unique keys. -/
abbrev Peers := List (String × PeerState)

/-- Association-list lookup (`HashMap::get`). -/
def alLookup (k : String) : Peers → Option PeerState
  | [] => none
  | (k2, v) :: rest => if k2 = k then some v else alLookup k rest

/-- Association-list insert (`HashMap::insert`: replaces an existing
binding). -/
def alInsert (k : String) (v : PeerState) : Peers → Peers
  | [] => [(k, v)]
  | (k2, v2) :: rest =>
      if k2 = k then (k, v) :: rest else (k2, v2) :: alInsert k v rest

/-- Accumulator of `Watcher::reconnect`: the peer table, the live links
(`links` keyed by `ServerId`; only membership matters here), and the
outbound dials started (peer name and connect deadline, in order). -/
structure RAcc where
  peers : Peers
  links : List ServerId
  dials : List (String × Nat)
deriving DecidableEq, Repr

/-- The per-peer dial decision inside `Watcher::reconnect`'s loop
(session.rs lines 190-203): skip a `Connected` peer whose `ServerId`
still has a live link, and a `Connecting` peer with
`deadline >= now`; dial otherwise. -/
def shouldDial (now : Nat) (links : List ServerId) :
    Option PeerState → Bool
  | some (.connected sid) => !(links.contains sid)
  | some (.connecting t) => decide (t < now)
  | none => true

/-- One iteration of `Watcher::reconnect`'s dial loop (session.rs lines
190-207): when dialing, mark the peer `Connecting(deadline)` and start
the outbound connect. -/
def dialStep (now deadline : Nat) (acc : RAcc) (p : String) : RAcc :=
  if shouldDial now acc.links (alLookup p acc.peers) then
    { peers := alInsert p (.connecting deadline) acc.peers
      links := acc.links
      dials := acc.dials ++ [(p, deadline)] }
  else acc

/-- The `ServerId`s whose links are removed by the first phase of
`Watcher::reconnect` (session.rs lines 178-188): ids of `Connected`
peers that are no longer configured. -/
def removedSids (cfg : List String) (peers : Peers) : List ServerId :=
  peers.filterMap (fun e =>
    if cfg.contains e.1 then none
    else
      match e.2 with
      | .connected sid => some sid
      | .connecting _ => none)

/-- First phase of `Watcher::reconnect`: drop peers that are no longer
configured. -/
def phase1Peers (cfg : List String) (peers : Peers) : Peers :=
  peers.filter (fun e => cfg.contains e.1)

/-- First phase of `Watcher::reconnect` on `links`: remove links of
dropped `Connected` peers. -/
def phase1Links (cfg : List String) (peers : Peers)
    (links : List ServerId) : List ServerId :=
  links.filter (fun sid => !(removedSids cfg peers).contains sid)

/-- `Watcher::reconnect` (session.rs lines 170-208): `now` and the
configured `reconnect_timeout`; the dial deadline is
`now + reconnect_timeout`, computed once before the loop. -/
def reconnect (now timeout : Nat) (cfg : List String) (peers : Peers)
    (links : List ServerId) : RAcc :=
  cfg.foldl (dialStep now (now + timeout))
    ⟨phase1Peers cfg peers, phase1Links cfg peers links, []⟩

/-- ASCII bytes of a literal (all sources here are ASCII). -/
def bytesOfAscii (s : String) : List Nat :=
  s.data.map Char.toNat

/-- `from_hex` (src/handlers/files.rs lines 123-129); `b & 0x0f` is
`b % 16`. -/
def fromHex (b : Nat) : Option Nat :=
  if 48 ≤ b ∧ b ≤ 57 then some (b % 16)
  else if 97 ≤ b ∧ b ≤ 102 then some (b % 16 + 9)
  else if 65 ≤ b ∧ b ≤ 70 then some (b % 16 + 9)
  else none

/-- `decode_component` (files.rs lines 131-150) over raw bytes:
percent-decodes one path component into `buf`; decoded bytes equal to
NUL or `/` (and literal NUL bytes) are rejected; `(h << 4) | l` is
`h * 16 + l`. -/
def decodeComponent : List Nat → List Nat → Option (List Nat)
  | buf, [] => some buf
  | buf, c :: rest =>
      if c = 37 then
        match rest with
        | h :: l :: rest2 =>
            match fromHex h, fromHex l with
            | some hv, some lv =>
                let b := hv * 16 + lv
                if b = 0 ∨ b = 47 then none
                else decodeComponent (buf ++ [b]) rest2
            | _, _ => none
        | _ => none
      else if c = 0 then none
      else decodeComponent (buf ++ [c]) rest

/-- `str::split(sep)` over raw bytes. -/
def splitOnByte (sep : Nat) : List Nat → List (List Nat)
  | [] => [[]]
  | c :: rest =>
      let r := splitOnByte sep rest
      if c = sep then [] :: r
      else
        match r with
        | x :: xs => (c :: x) :: xs
        | [] => [[c]]

/-- The component spellings skipped by `path`'s loop (files.rs line
200): `""`, `"."`, `"%2e"`, `"%2E"`. -/
def skipSpellings : List (List Nat) :=
  ["", ".", "%2e", "%2E"].map bytesOfAscii

/-- The `..` component spellings rejected by `path`'s loop (files.rs
lines 201-202). -/
def ddSpellings : List (List Nat) :=
  ["..", "%2e.", "%2E.", ".%2e", ".%2E",
   "%2e%2e", "%2E%2e", "%2e%2E", "%2E%2E"].map bytesOfAscii

/-- The component loop of `path` (files.rs lines 198-210): skip empty
and single-dot spellings, reject dot-dot spellings, otherwise append a
`/` separator (when `buf` is non-empty) and percent-decode the
component into `buf`. -/
def processComps : List Nat → List (List Nat) → Option (List Nat)
  | buf, [] => some buf
  | buf, c :: rest =>
      if skipSpellings.contains c then processComps buf rest
      else if ddSpellings.contains c then none
      else
        match decodeComponent
            (if 0 < buf.length then buf ++ [47] else buf) c with
        | some b2 => processComps b2 rest
        | none => none

/-- `Mode` of the static-files handler (config::static_files). -/
inductive FMode where
  | relative_to_domain_root
  | with_hostname
  | relative_to_route
deriving DecidableEq, Repr

/-- The request-path selection and query/fragment strip at the top of
`path` (files.rs lines 153-162): `inp.headers.path().unwrap_or("/")`
or `inp.suffix`, truncated at the first `?` or `#`. -/
def effPath (mode : FMode) (reqPath : Option (List Nat))
    (suffix : List Nat) : List Nat :=
  let p :=
    match mode with
    | .relative_to_route => suffix
    | _ => reqPath.getD [47]
  p.takeWhile (fun c => c ≠ 63 ∧ c ≠ 35)

/-- The `with_hostname` prelude of `path` (files.rs lines 164-197):
reject hosts containing `/`, cut at the first `:`, and optionally strip
the configured host suffix (which must be preceded by a dot and leave a
non-empty... the source only requires `suf.len() < name.len()`). -/
def hostBuf (host : Option (List Nat)) (strip : Option (List Nat)) :
    Option (List Nat) :=
  match host with
  | none => none
  | some h =>
    if h.contains 47 then none
    else
      let name := h.takeWhile (fun c => c ≠ 58)
      match strip with
      | none => some name
      | some suf =>
        if suf.length ≥ name.length then none
        else if !(suf.isSuffixOf name) then none
        else
          let fd := name.length - suf.length - 1
          if [46].isPrefixOf (name.drop fd) then some (name.take fd)
          else none

/-- Modelled: `std::str::from_utf8` validity (external library), the
standard UTF-8 well-formedness check over bytes. -/
def validUtf8 : List Nat → Bool
  | [] => true
  | b :: r =>
    if b ≤ 0x7F then validUtf8 r
    else if 0xC2 ≤ b ∧ b ≤ 0xDF then
      match r with
      | c1 :: r2 => (0x80 ≤ c1 ∧ c1 ≤ 0xBF) ∧ validUtf8 r2
      | [] => false
    else if 0xE0 ≤ b ∧ b ≤ 0xEF then
      match r with
      | c1 :: c2 :: r2 =>
        (if b = 0xE0 then 0xA0 ≤ c1 ∧ c1 ≤ 0xBF
         else if b = 0xED then 0x80 ≤ c1 ∧ c1 ≤ 0x9F
         else 0x80 ≤ c1 ∧ c1 ≤ 0xBF) ∧
        (0x80 ≤ c2 ∧ c2 ≤ 0xBF) ∧ validUtf8 r2
      | _ => false
    else if 0xF0 ≤ b ∧ b ≤ 0xF4 then
      match r with
      | c1 :: c2 :: c3 :: r2 =>
        (if b = 0xF0 then 0x90 ≤ c1 ∧ c1 ≤ 0xBF
         else if b = 0xF4 then 0x80 ≤ c1 ∧ c1 ≤ 0x8F
         else 0x80 ≤ c1 ∧ c1 ≤ 0xBF) ∧
        (0x80 ≤ c2 ∧ c2 ≤ 0xBF) ∧ (0x80 ≤ c3 ∧ c3 ≤ 0xBF) ∧ validUtf8 r2
      | _ => false
    else false

/-- `Path::join` over byte paths: joining an absolute path replaces the
base; joining a relative one appends it behind a separator. -/
def rustJoin (base sub : List Nat) : List Nat :=
  if sub.head? = some 47 then sub
  else if sub.isEmpty then base
  else base ++ 47 :: sub

/-- The sub-path computed by `path` (files.rs lines 152-217) before the
final join: hostname prelude, component loop, and the UTF-8 check of
`from_utf8(&buf)`. -/
def pathSub (mode : FMode) (reqPath : Option (List Nat))
    (suffix : List Nat) (host : Option (List Nat))
    (strip : Option (List Nat)) : Option (List Nat) :=
  let p := effPath mode reqPath suffix
  let buf0 := if mode = .with_hostname then hostBuf host strip else some []
  match buf0 with
  | none => none
  | some b0 =>
    match processComps b0 (splitOnByte 47 p) with
    | none => none
    | some buf => if validUtf8 buf then some buf else none

/-- `path` (files.rs lines 152-218): `Ok(settings.path.join(utf8))`. -/
def pathFn (mode : FMode) (reqPath : Option (List Nat))
    (suffix : List Nat) (host : Option (List Nat))
    (strip : Option (List Nat)) (base : List Nat) : Option (List Nat) :=
  (pathSub mode reqPath suffix host strip).map (rustJoin base)

/-- Rust's `u64` digit loop (`from_str_radix`, radix 10): one
`checked_mul`/`checked_add` step per ASCII digit, failing on a
non-digit or on overflow past `2 ^ 64 - 1`. -/
def parseDigitsAux (acc : Nat) : List Nat → Option Nat
  | [] => some acc
  | d :: ds =>
      if 48 ≤ d ∧ d ≤ 57 then
        let a2 := acc * 10 + (d - 48)
        if a2 < 2 ^ 64 then parseDigitsAux a2 ds else none
      else none

/-- Rust's `u64::from_str` over the string's bytes: an optional leading
`+` (a `-` is an invalid digit for unsigned types), then at least one
decimal digit. -/
def parseU64 : List Nat → Option Nat
  | [] => none
  | d :: ds =>
      if d = 43 then
        if ds = [] then none else parseDigitsAux 0 ds
      else parseDigitsAux 0 (d :: ds)

/-- `Cid::from_str` (src/chat/cid.rs lines 25-31):
`src.parse().map(|x| Cid(x))`, over the string's bytes. -/
def cidFromStr (s : List Nat) : Option Cid :=
  (parseU64 s).map (fun n => ⟨n⟩)

/-- Decimal rendering of a `Nat`, most significant digit first — the
`u64` `Display` used by `format!("{}", cid.0)`. -/
def natToDec (n : Nat) : List Nat :=
  if h : n < 10 then [48 + n]
  else natToDec (n / 10) ++ [48 + n % 10]
decreasing_by
  exact Nat.div_lt_self (by omega) (by omega)

/-- `serialize_cid` (src/chat/cid.rs lines 21-23):
`format!("{}", cid.0)`, as bytes. -/
def serializeCid (c : Cid) : List Nat :=
  natToDec c.val

/-- Decimal value of a digit-byte list under an accumulator (the loop
invariant of `parseDigitsAux`). -/
def decValFrom (acc : Nat) (ds : List Nat) : Nat :=
  ds.foldl (fun a d => a * 10 + (d - 48)) acc

/-- Claim C1: the claim says `Watcher::local_send` forwards nothing to
the Processor for every connection-scoped `RemoteAction` with a foreign
`server_id`, listing `AttachUsers` and `DetachUsers` among them.  The
source's filter matches only `Subscribe`, `Unsubscribe`, `Attach`,
`Detach`: an `AttachUsers` or `DetachUsers` carrying a foreign
`server_id` is forwarded to the Processor (while `Subscribe` with the
same foreign id is correctly skipped). -/
theorem C1_local_send_forwards_foreign_users_actions :
    localSend 1 ⟨"p", .attachUsers ⟨5⟩ 2 ["u"]⟩ =
      some ⟨"p", .attachUsers ⟨5⟩ 2 ["u"]⟩ ∧
    localSend 1 ⟨"p", .detachUsers ⟨5⟩ 2⟩ =
      some ⟨"p", .detachUsers ⟨5⟩ 2⟩ ∧
    localSend 1 ⟨"p", .subscribe ⟨5⟩ 2 "t"⟩ = none :=
  ⟨rfl, rfl, rfl⟩

/-- Claim C2: the claim says both lattice endpoints reject namespaces
beginning with `swindon.` with 403.  `Handler::dispatch` performs the
check only in the `connection/{cid}/lattices` branch; the
`POST lattice/{ns}` branch accepts the reserved namespace and produces
a `Route::Lattice` query (which then emits actions and answers 204). -/
theorem C2_post_lattice_reserved_namespace_not_rejected :
    dispatch (fun _ => none) "POST" "lattice/swindon/internal".data =
      .query (.lattice "swindon.internal") ∧
    dispatch (fun _ => none) "PUT"
      "connection/1/lattices/swindon/internal".data = .error 403 := by
  constructor <;> rfl

/-- Claim C4 (counterexample): a first Processor message that is neither
`Hello` nor `FatalError` — here a `Publish` — does not close the socket
with code 4500 as the claim states; the source `panic!`s. -/
theorem C4_counterexample :
    hijackFirst (.msg (.publish "t" "x")) = .panicked ∧
    closeCode (hijackFirst (.msg (.publish "t" "x"))) = none ∧
    (none : Option Nat) ≠ some 4500 :=
  ⟨rfl, rfl, by decide⟩

/-- Claim C4 (amended): after the upgrade, a first message
`FatalError(HttpError(status, data))` with a valid 4xx/5xx status
closes the socket with code `4000 + status` and payload
`"backend_error"`; any first message other than `Hello` or
`FatalError` panics the handler task instead of closing with 4500. -/
theorem C4_first_message (s : Nat) (d : Option JsonV) (m : ConnMsg) :
    (goodStatus s = true →
      hijackFirst (.msg (.fatalError (.httpError s d))) =
        .closeSock (4000 + s) "backend_error") ∧
    (m.isHello = false → m.isFatal = false →
      hijackFirst (.msg m) = .panicked) := by
  constructor
  · intro h
    simp [hijackFirst, h]
  · intro h1 h2
    cases m <;> simp_all [hijackFirst, ConnMsg.isHello, ConnMsg.isFatal]

/-- Witness for C4_first_message at status 404 and a `Publish` first
message. -/
theorem C4_first_message_witness :
    goodStatus 404 = true ∧
    hijackFirst (.msg (.fatalError (.httpError 404 none))) =
      .closeSock 4404 "backend_error" ∧
    (ConnMsg.publish "t" "x").isHello = false ∧
    (ConnMsg.publish "t" "x").isFatal = false ∧
    hijackFirst (.msg (.publish "t" "x")) = .panicked :=
  ⟨by decide,
   by simpa using (C4_first_message 404 none (.publish "t" "x")).1 (by decide),
   by decide, by decide,
   (C4_first_message 404 none (.publish "t" "x")).2 (by decide) (by decide)⟩

/-- Claim C5 (counterexample): a non-empty subprotocol list that does
not contain `v1.swindon-lattice+json` does not yield 400 Bad Request as
the claim states: `choose_proto` returns `Ok(None)` and the upgrade
proceeds with no subprotocol, even when the config forbids empty
subprotocol lists. -/
theorem C5_counterexample :
    serveWs ["other"] false = .upgrade none ∧
    ServeResult.upgrade none ≠ ServeResult.errorPage 400 :=
  ⟨rfl, by decide⟩

/-- Claim C5 (amended): if `v1.swindon-lattice+json` is offered it is
selected; a non-empty offer without it proceeds with no subprotocol;
an empty offer proceeds without a subprotocol exactly when the config
allows empty, and yields 400 otherwise. -/
theorem C5_choose_proto (ps : List String) (allow : Bool) :
    (ps = [] →
      serveWs ps allow =
        (if allow then .upgrade none else .errorPage 400)) ∧
    (ps ≠ [] → ps.any (fun x => x == "v1.swindon-lattice+json") = true →
      serveWs ps allow = .upgrade (some "v1.swindon-lattice+json")) ∧
    (ps ≠ [] → ps.any (fun x => x == "v1.swindon-lattice+json") = false →
      serveWs ps allow = .upgrade none) := by
  refine ⟨fun h => ?_, fun h1 h2 => ?_, fun h1 h2 => ?_⟩
  · subst h
    cases allow <;> simp [serveWs, chooseProto]
  · simp [serveWs, chooseProto, List.length_eq_zero, h1, h2]
  · simp [serveWs, chooseProto, List.length_eq_zero, h1, h2]

/-- Witness for C5_choose_proto: the subprotocol is offered and gets
selected. -/
theorem C5_choose_proto_witness :
    (["v1.swindon-lattice+json"] : List String) ≠ [] ∧
    (["v1.swindon-lattice+json"].any
      (fun x => x == "v1.swindon-lattice+json")) = true ∧
    serveWs ["v1.swindon-lattice+json"] false =
      .upgrade (some "v1.swindon-lattice+json") :=
  ⟨by simp, by simp,
   (C5_choose_proto ["v1.swindon-lattice+json"] false).2.1 (by simp) (by simp)⟩

/-- The message-buffer flush of `associate` only appends `Publish`
messages to the channel, leaving every other field unchanged. -/
theorem foldl_message_channel (mb : List (String × JsonV)) (c : Connection) :
    mb.foldl (fun c td => c.message td.1 td.2) c =
      { c with channel :=
          c.channel ++ mb.map (fun td => ConnMsg.publish td.1 td.2) } := by
  induction mb generalizing c with
  | nil => simp
  | cons hd tl ih =>
      rw [List.foldl_cons, ih]
      simp [Connection.message, List.append_assoc]

/-- Claim C8: `NewConnection::associate` yields an `Active` connection
keeping the same cid, topics, lattices and channel, with every buffered
`(topic, data)` pair enqueued on the channel as a `Publish` message in
buffer order (and hands back the pending user-watch set). -/
theorem C8_associate (nc : NewConnection) (sid : SessionId) :
    (nc.associate sid).1.cid = nc.cid ∧
    (nc.associate sid).1.topics = nc.topics ∧
    (nc.associate sid).1.lattices = nc.lattices ∧
    (nc.associate sid).1.session_id = sid ∧
    (nc.associate sid).1.channel =
      nc.channel ++
        nc.message_buffer.map (fun td => ConnMsg.publish td.1 td.2) ∧
    (nc.associate sid).2 = nc.users_lattice := by
  simp [NewConnection.associate, foldl_message_channel]

/-- Claim C3 (counterexample): a `PUT /v1/connection/{cid}/lattices/{ns}`
request whose `PubCid` carries a foreign `ServerId` still sends the
local `Action::Lattice` merge to the Processor — the local action list
is not empty, contradicting the claim that no local `Action` is sent. -/
theorem C3_counterexample :
    (dataReceived 1 (.query (.latticeSubscribe ⟨⟨5⟩, 2⟩ "chat"))
        ⟨4, none, some "d", none⟩).2.1 = [.lattice "chat" "d"] ∧
    ([Action.lattice "chat" "d"] : List Action) ≠ [] :=
  ⟨rfl, by decide⟩

/-- Claim C3 (amended): for every control-plane request carrying a
`PubCid` with a foreign `ServerId`, `data_received` sends no
connection-scoped local `Action` to the Processor (the lattice merge of
`PUT .../lattices` is still applied locally), and on success at least
one `RemoteAction` is emitted. -/
theorem C3_foreign_cid (myId : ServerId) (q : Route) (pc : PubCid) (b : Body)
    (h1 : routePubCid q = some pc) (h2 : pc.server_id ≠ myId) :
    (∀ a ∈ (dataReceived myId (.query q) b).2.1, a.connScoped = false) ∧
    ((dataReceived myId (.query q) b).1 = .done →
      (dataReceived myId (.query q) b).2.2 ≠ []) := by
  obtain ⟨cc, sid⟩ := pc
  replace h2 : sid ≠ myId := h2
  cases q <;> simp [routePubCid] at h1 <;> subst h1 <;>
    refine ⟨fun a ha => ?_, fun hd => ?_⟩ <;>
    first
    | (simp only [dataReceived] at ha
       split at ha <;> simp_all [Action.connScoped])
    | (simp only [dataReceived] at hd ⊢
       split at hd <;> simp_all)
    | simp_all [dataReceived, Action.connScoped]

/-- Witness for C3_foreign_cid at a foreign `Detach` route. -/
theorem C3_foreign_cid_witness :
    routePubCid (.detach ⟨⟨5⟩, 2⟩ "n") = some ⟨⟨5⟩, 2⟩ ∧
    (PubCid.mk ⟨5⟩ 2).server_id ≠ 1 ∧
    (∀ a ∈ (dataReceived 1 (.query (.detach ⟨⟨5⟩, 2⟩ "n"))
        ⟨0, none, none, none⟩).2.1, a.connScoped = false) ∧
    ((dataReceived 1 (.query (.detach ⟨⟨5⟩, 2⟩ "n"))
        ⟨0, none, none, none⟩).1 = .done →
      (dataReceived 1 (.query (.detach ⟨⟨5⟩, 2⟩ "n"))
        ⟨0, none, none, none⟩).2.2 ≠ []) := by
  refine ⟨rfl, by decide, ?_, ?_⟩
  · exact (C3_foreign_cid 1 (.detach ⟨⟨5⟩, 2⟩ "n") ⟨⟨5⟩, 2⟩
      ⟨0, none, none, none⟩ rfl (by decide)).1
  · exact (C3_foreign_cid 1 (.detach ⟨⟨5⟩, 2⟩ "n") ⟨⟨5⟩, 2⟩
      ⟨0, none, none, none⟩ rfl (by decide)).2

/-- Claim C7: for a bodied route, a missing or invalid Content-Type with
`weak_content_type` unset or false yields 400 with no local or remote
action emitted; with `weak_content_type=true` the request warns and
continues to normal processing. -/
theorem C7_weak_content_type (parseCid : List Char → Option PubCid)
    (weak : Option Bool) (ct : ContentType) (method : String)
    (p : List Char) (q : Route)
    (hpre : "/v1/".data.isPrefixOf p = true)
    (hq : dispatch parseCid method (p.drop 4) = .query q)
    (hb : q.hasBody = true) :
    ((weak = none ∨ weak = some false) → (ct = .absent ∨ ct = .invalid) →
      headersReceived parseCid weak ct method (some p) = .error 400 ∧
      (∀ (myId : ServerId) (b : Body),
        dataReceived myId (.error 400) b = (.error 400, [], [])) ∧
      responseStatus (.error 400) = 400) ∧
    (weak = some true → (ct = .absent ∨ ct = .invalid) →
      headersReceived parseCid weak ct method (some p) = .query q ∧
      contentGate weak ct = .proceed true) := by
  constructor
  · intro hw hct
    have hgate : contentGate weak ct = .reject := by
      rcases hw with h | h <;> rcases hct with h2 | h2 <;>
        subst h <;> subst h2 <;> rfl
    refine ⟨?_, fun myId b => rfl, rfl⟩
    simp [headersReceived, hpre, hq, hb, hgate]
  · intro hw hct
    have hgate : contentGate weak ct = .proceed true := by
      subst hw
      rcases hct with h2 | h2 <;> subst h2 <;> rfl
    exact ⟨by simp [headersReceived, hpre, hq, hb, hgate], hgate⟩

/-- Witness for C7_weak_content_type on `POST /v1/publish/x` with an
absent Content-Type, in strict mode. -/
theorem C7_weak_content_type_witness :
    ("/v1/".data.isPrefixOf "/v1/publish/x".data = true) ∧
    (dispatch (fun _ => none) "POST" ("/v1/publish/x".data.drop 4) =
      .query (.publish "x")) ∧
    (Route.publish "x").hasBody = true ∧
    headersReceived (fun _ => none) none .absent "POST"
      (some "/v1/publish/x".data) = .error 400 := by
  refine ⟨by decide, by rfl, rfl, ?_⟩
  exact ((C7_weak_content_type (fun _ => none) none .absent "POST"
    "/v1/publish/x".data (.publish "x") (by decide) (by rfl) rfl).1
    (Or.inl rfl) (Or.inl rfl)).1

/-- A dial step never changes the link table. -/
theorem dialStep_links (now dl : Nat) (acc : RAcc) (p : String) :
    (dialStep now dl acc p).links = acc.links := by
  simp only [dialStep]
  split <;> rfl

/-- The whole dial loop never changes the link table. -/
theorem foldl_dialStep_links (now dl : Nat) (cfg : List String)
    (acc : RAcc) :
    (cfg.foldl (dialStep now dl) acc).links = acc.links := by
  induction cfg generalizing acc with
  | nil => rfl
  | cons q rest ih => rw [List.foldl_cons, ih, dialStep_links]

/-- Lookup after insert in the peer table. -/
theorem alLookup_insert (k p : String) (v : PeerState) (l : Peers) :
    alLookup p (alInsert k v l) =
      if k = p then some v else alLookup p l := by
  induction l with
  | nil => simp [alInsert, alLookup]
  | cons hd tl ih =>
      obtain ⟨k2, v2⟩ := hd
      simp only [alInsert]
      by_cases h : k2 = k
      · rw [if_pos h]
        subst h
        simp only [alLookup]
        by_cases h2 : k2 = p
        · simp [h2]
        · simp [h2]
      · rw [if_neg h]
        simp only [alLookup, ih]
        by_cases h2 : k2 = p
        · subst h2
          have hk : ¬ k = k2 := fun hh => h hh.symm
          simp [hk]
        · simp [h2]

/-- Peers not processed by the dial loop keep their table entry. -/
theorem foldl_lookup_notmem (now dl : Nat) (cfg : List String)
    (acc : RAcc) (p : String) (hp : p ∉ cfg) :
    alLookup p (cfg.foldl (dialStep now dl) acc).peers =
      alLookup p acc.peers := by
  induction cfg generalizing acc with
  | nil => rfl
  | cons q rest ih =>
      rw [List.foldl_cons,
        ih _ (fun hm => hp (List.mem_cons_of_mem _ hm))]
      have hq : q ≠ p := by
        rintro rfl
        exact hp (List.mem_cons_self _ _)
      simp only [dialStep]
      split
      · simp [alLookup_insert, hq]
      · rfl

/-- Peers not processed by the dial loop gain no dial entry. -/
theorem foldl_dials_notmem (now dl : Nat) (cfg : List String)
    (acc : RAcc) (p : String) (x : Nat) (hp : p ∉ cfg) :
    ((p, x) ∈ (cfg.foldl (dialStep now dl) acc).dials ↔
      (p, x) ∈ acc.dials) := by
  induction cfg generalizing acc with
  | nil => exact Iff.rfl
  | cons q rest ih =>
      rw [List.foldl_cons,
        ih _ (fun hm => hp (List.mem_cons_of_mem _ hm))]
      have hq : p ≠ q := by
        rintro rfl
        exact hp (List.mem_cons_self _ _)
      simp only [dialStep]
      split
      · simp [hq]
      · exact Iff.rfl

/-- Per-peer characterisation of the dial loop: with distinct configured
peers, a peer's resulting entry and dial record depend only on its own
pre-loop state and the (unchanged) link table. -/
theorem foldl_dialStep_char (now dl : Nat) (cfg : List String)
    (acc : RAcc) (p : String) (hnd : cfg.Nodup) (hp : p ∈ cfg) :
    (alLookup p (cfg.foldl (dialStep now dl) acc).peers =
      if shouldDial now acc.links (alLookup p acc.peers)
      then some (.connecting dl) else alLookup p acc.peers) ∧
    ((p, dl) ∈ (cfg.foldl (dialStep now dl) acc).dials ↔
      ((p, dl) ∈ acc.dials ∨
        shouldDial now acc.links (alLookup p acc.peers) = true)) := by
  induction cfg generalizing acc with
  | nil => cases hp
  | cons q rest ih =>
      rcases List.mem_cons.mp hp with rfl | hmem
      · have hnr : p ∉ rest := (List.nodup_cons.mp hnd).1
        rw [List.foldl_cons]
        constructor
        · rw [foldl_lookup_notmem now dl rest _ p hnr]
          cases hsd : shouldDial now acc.links (alLookup p acc.peers) with
          | true => simp [dialStep, hsd, alLookup_insert]
          | false => simp [dialStep, hsd]
        · rw [foldl_dials_notmem now dl rest _ p dl hnr]
          cases hsd : shouldDial now acc.links (alLookup p acc.peers) with
          | true => simp [dialStep, hsd]
          | false => simp [dialStep, hsd]
      · have hq : q ≠ p := fun h =>
          (List.nodup_cons.mp hnd).1 (h ▸ hmem)
        have ihh := ih (dialStep now dl acc q) (List.nodup_cons.mp hnd).2 hmem
        have hl : (dialStep now dl acc q).links = acc.links :=
          dialStep_links now dl acc q
        have hlk : alLookup p (dialStep now dl acc q).peers =
            alLookup p acc.peers := by
          simp only [dialStep]
          split
          · simp [alLookup_insert, hq]
          · rfl
        have hdl : ((p, dl) ∈ (dialStep now dl acc q).dials ↔
            (p, dl) ∈ acc.dials) := by
          simp only [dialStep]
          split
          · simp [Ne.symm hq]
          · exact Iff.rfl
        rw [List.foldl_cons]
        constructor
        · rw [ihh.1, hl, hlk]
        · rw [ihh.2, hl, hlk, hdl]

/-- Claim C6 (counterexample): a configured peer in `Connected` state
whose `ServerId` has no live link is *not* left untouched as the claim
states — it is re-marked `Connecting(now + reconnect_timeout)` and
dialed; and a `Connecting` peer whose deadline equals `now` (so not
`deadline > now`) is *not* dialed, because the source skips on
`deadline >= now`. -/
theorem C6_counterexample :
    (reconnect 100 30 ["a"] [("a", .connected 7)] []).peers =
      [("a", .connecting 130)] ∧
    (reconnect 100 30 ["a"] [("a", .connected 7)] []).dials =
      [("a", 130)] ∧
    (reconnect 100 30 ["b"] [("b", .connecting 100)] []).peers =
      [("b", .connecting 100)] ∧
    (reconnect 100 30 ["b"] [("b", .connecting 100)] []).dials = [] := by
  refine ⟨rfl, rfl, rfl, rfl⟩

/-- Claim C6 (amended): on a reconnect pass over distinct configured
peers, links are only pruned of dropped peers; a configured peer is
dialed (and marked `Connecting(now + reconnect_timeout)`) unless it is
`Connected` with its `ServerId` still in `links`, or `Connecting` with
`deadline >= now`; peers in those two states are left untouched. -/
theorem C6_reconnect (now timeout : Nat) (cfg : List String)
    (peers : Peers) (links : List ServerId) (p : String)
    (hnd : cfg.Nodup) (hp : p ∈ cfg) :
    (reconnect now timeout cfg peers links).links =
      phase1Links cfg peers links ∧
    alLookup p (reconnect now timeout cfg peers links).peers =
      (if shouldDial now (phase1Links cfg peers links)
            (alLookup p (phase1Peers cfg peers))
       then some (.connecting (now + timeout))
       else alLookup p (phase1Peers cfg peers)) ∧
    ((p, now + timeout) ∈ (reconnect now timeout cfg peers links).dials ↔
      shouldDial now (phase1Links cfg peers links)
        (alLookup p (phase1Peers cfg peers)) = true) ∧
    (shouldDial now (phase1Links cfg peers links)
        (alLookup p (phase1Peers cfg peers)) = false ↔
      ((∃ sid, alLookup p (phase1Peers cfg peers) =
          some (.connected sid) ∧
          (phase1Links cfg peers links).contains sid = true) ∨
       (∃ t, alLookup p (phase1Peers cfg peers) =
          some (.connecting t) ∧ now ≤ t))) := by
  have h := foldl_dialStep_char now (now + timeout) cfg
    ⟨phase1Peers cfg peers, phase1Links cfg peers links, []⟩ p hnd hp
  refine ⟨foldl_dialStep_links now (now + timeout) cfg _, h.1,
    by simpa using h.2, ?_⟩
  cases hst : alLookup p (phase1Peers cfg peers) with
  | none => simp [shouldDial]
  | some st =>
      cases st with
      | connecting t =>
          simp [shouldDial, decide_eq_false_iff_not, Nat.not_lt]
      | connected sid =>
          simp [shouldDial]

/-- Witness for C6_reconnect: a single configured peer, `Connected` but
with no live link, gets re-dialed. -/
theorem C6_reconnect_witness :
    List.Nodup ["a"] ∧ "a" ∈ ["a"] ∧
    alLookup "a"
      (reconnect 100 30 ["a"] [("a", PeerState.connected 7)] []).peers =
      some (.connecting 130) := by
  refine ⟨by simp, by simp, ?_⟩
  rw [(C6_reconnect 100 30 ["a"] [("a", PeerState.connected 7)] [] "a"
    (by simp) (by simp)).2.1]
  rfl

/-- Folding one digit into the accumulator. -/
theorem decValFrom_cons (acc d : Nat) (ds : List Nat) :
    decValFrom acc (d :: ds) = decValFrom (acc * 10 + (d - 48)) ds := rfl

/-- Folding a trailing digit. -/
theorem decValFrom_append (acc d : Nat) (xs : List Nat) :
    decValFrom acc (xs ++ [d]) = decValFrom acc xs * 10 + (d - 48) := by
  simp [decValFrom, List.foldl_append]

/-- The accumulator never decreases along the digit fold. -/
theorem le_decValFrom (ds : List Nat) : ∀ acc, acc ≤ decValFrom acc ds := by
  induction ds with
  | nil => intro acc; simp [decValFrom]
  | cons d ds ih =>
      intro acc
      rw [decValFrom_cons]
      exact le_trans (by omega) (ih (acc * 10 + (d - 48)))

/-- The digit loop succeeds on all-digit input whose value fits. -/
theorem parseDigitsAux_ok (ds : List Nat) : ∀ acc,
    (∀ d ∈ ds, 48 ≤ d ∧ d ≤ 57) → decValFrom acc ds < 2 ^ 64 →
    parseDigitsAux acc ds = some (decValFrom acc ds) := by
  induction ds with
  | nil => intro acc _ _; rfl
  | cons d ds ih =>
      intro acc hd hb
      have hdig := hd d (List.mem_cons_self _ _)
      simp only [parseDigitsAux]
      rw [if_pos hdig]
      have h2 : acc * 10 + (d - 48) < 2 ^ 64 :=
        lt_of_le_of_lt (le_decValFrom ds _) (by rw [← decValFrom_cons]; exact hb)
      rw [if_pos h2, decValFrom_cons]
      exact ih _ (fun x hx => hd x (List.mem_cons_of_mem _ hx))
        (by rw [← decValFrom_cons]; exact hb)

/-- What a successful digit loop guarantees. -/
theorem parseDigitsAux_inv (ds : List Nat) : ∀ acc n,
    parseDigitsAux acc ds = some n →
    (∀ d ∈ ds, 48 ≤ d ∧ d ≤ 57) ∧ n = decValFrom acc ds ∧
      (ds = [] ∨ n < 2 ^ 64) := by
  induction ds with
  | nil =>
      intro acc n h
      simp only [parseDigitsAux, Option.some.injEq] at h
      exact ⟨by simp, by simp [decValFrom, h], Or.inl rfl⟩
  | cons d ds ih =>
      intro acc n h
      simp only [parseDigitsAux] at h
      by_cases hdig : 48 ≤ d ∧ d ≤ 57
      · rw [if_pos hdig] at h
        by_cases hb : acc * 10 + (d - 48) < 2 ^ 64
        · rw [if_pos hb] at h
          obtain ⟨hall, hval, hbound⟩ := ih _ _ h
          refine ⟨?_, by rw [decValFrom_cons]; exact hval, Or.inr ?_⟩
          · intro x hx
            rcases List.mem_cons.mp hx with rfl | hx2
            · exact hdig
            · exact hall x hx2
          · rcases hbound with hnil | hlt
            · subst hnil
              simpa [decValFrom_cons, decValFrom] using hval ▸ hb
            · exact hlt
        · rw [if_neg hb] at h
          cases h
      · rw [if_neg hdig] at h
        cases h

/-- Every byte of the decimal rendering is an ASCII digit. -/
theorem natToDec_digits (n : Nat) : ∀ d ∈ natToDec n, 48 ≤ d ∧ d ≤ 57 := by
  induction n using Nat.strong_induction_on with
  | _ n ih =>
      by_cases h : n < 10
      · rw [natToDec, dif_pos h]
        intro d hd
        simp at hd
        omega
      · rw [natToDec, dif_neg h]
        intro d hd
        rcases List.mem_append.mp hd with h1 | h2
        · exact ih (n / 10) (Nat.div_lt_self (by omega) (by omega)) d h1
        · have : d = 48 + n % 10 := by simpa using h2
          have := Nat.mod_lt n (show 0 < 10 by omega)
          omega

/-- The decimal rendering evaluates back to its source. -/
theorem natToDec_val (n : Nat) : decValFrom 0 (natToDec n) = n := by
  induction n using Nat.strong_induction_on with
  | _ n ih =>
      by_cases h : n < 10
      · rw [natToDec, dif_pos h]
        simp [decValFrom]
      · rw [natToDec, dif_neg h, decValFrom_append,
          ih (n / 10) (Nat.div_lt_self (by omega) (by omega))]
        omega

/-- The decimal rendering is never empty. -/
theorem natToDec_ne_nil (n : Nat) : natToDec n ≠ [] := by
  rw [natToDec]
  split <;> simp

/-- Claim C10: `serialize_cid` renders the `u64` in decimal and
`Cid::from_str` round-trips it; `from_str` succeeds exactly on the
strings Rust's `u64` parser accepts — an optional leading `+` (byte
43), then one or more ASCII decimal digits whose value is below
`2 ^ 64` — and fails otherwise. -/
theorem C10_cid_roundtrip :
    (∀ c : Cid, c.val < 2 ^ 64 →
      cidFromStr (serializeCid c) = some c) ∧
    (∀ (s : List Nat) (n : Nat), cidFromStr s = some ⟨n⟩ ↔
      ∃ ds, (s = ds ∨ s = 43 :: ds) ∧ ds ≠ [] ∧
        (∀ d ∈ ds, 48 ≤ d ∧ d ≤ 57) ∧ decValFrom 0 ds = n ∧
        n < 2 ^ 64) := by
  have hparse : ∀ (s : List Nat) (n : Nat), parseU64 s = some n ↔
      ∃ ds, (s = ds ∨ s = 43 :: ds) ∧ ds ≠ [] ∧
        (∀ d ∈ ds, 48 ≤ d ∧ d ≤ 57) ∧ decValFrom 0 ds = n ∧
        n < 2 ^ 64 := by
    intro s n
    constructor
    · intro h
      cases s with
      | nil => cases h
      | cons d ds =>
          simp only [parseU64] at h
          by_cases hd43 : d = 43
          · subst hd43
            rw [if_pos rfl] at h
            by_cases hds : ds = []
            · rw [if_pos hds] at h
              cases h
            · rw [if_neg hds] at h
              obtain ⟨hall, hval, hbound⟩ := parseDigitsAux_inv ds 0 n h
              exact ⟨ds, Or.inr rfl, hds, hall, hval.symm,
                (hbound.resolve_left hds)⟩
          · rw [if_neg hd43] at h
            obtain ⟨hall, hval, hbound⟩ := parseDigitsAux_inv (d :: ds) 0 n h
            exact ⟨d :: ds, Or.inl rfl, by simp, hall, hval.symm,
              hbound.resolve_left (by simp)⟩
    · rintro ⟨ds, hcase, hne, hdig, hval, hb⟩
      rcases hcase with rfl | rfl
      · cases s with
        | nil => exact absurd rfl hne
        | cons d rest =>
            have hd48 := hdig d (List.mem_cons_self _ _)
            simp only [parseU64]
            rw [if_neg (by omega : ¬ d = 43),
              parseDigitsAux_ok (d :: rest) 0 hdig (by rw [hval]; exact hb),
              hval]
      · simp only [parseU64]
        rw [if_pos trivial, if_neg hne,
          parseDigitsAux_ok ds 0 hdig (by rw [hval]; exact hb), hval]
  constructor
  · intro c hc
    obtain ⟨v⟩ := c
    have hrt : parseU64 (natToDec v) = some v := by
      cases hnd : natToDec v with
      | nil => exact absurd hnd (natToDec_ne_nil v)
      | cons d ds =>
          have hd48 : 48 ≤ d ∧ d ≤ 57 :=
            natToDec_digits v d (hnd ▸ List.mem_cons_self _ _)
          simp only [parseU64]
          rw [if_neg (by omega : ¬ d = 43)]
          have hdigs : ∀ x ∈ d :: ds, 48 ≤ x ∧ x ≤ 57 :=
            fun x hx => natToDec_digits v x (hnd ▸ hx)
          have hvv : decValFrom 0 (d :: ds) = v := hnd ▸ natToDec_val v
          rw [parseDigitsAux_ok (d :: ds) 0 hdigs (by rw [hvv]; exact hc), hvv]
    simp [cidFromStr, serializeCid, hrt]
  · intro s n
    rw [← hparse s n]
    simp [cidFromStr]

/-- Witness for C10_cid_roundtrip: round-trip at 12345, and `"+42"`
(bytes `[43, 52, 50]`) parsing to `Cid(42)`. -/
theorem C10_cid_roundtrip_witness :
    ((12345 : Nat) < 2 ^ 64 ∧
      cidFromStr (serializeCid ⟨12345⟩) = some ⟨12345⟩) ∧
    cidFromStr [43, 52, 50] = some ⟨42⟩ :=
  ⟨⟨by norm_num, C10_cid_roundtrip.1 ⟨12345⟩ (by norm_num)⟩,
   (C10_cid_roundtrip.2 [43, 52, 50] 42).mpr
     ⟨[52, 50], Or.inr rfl, by simp, by decide, by decide, by norm_num⟩⟩

/-- Head of an append with a non-empty left part. -/
theorem head?_append_left (l1 l2 : List Nat) (h : l1 ≠ []) :
    (l1 ++ l2).head? = l1.head? := by
  cases l1 with
  | nil => exact absurd rfl h
  | cons x xs => rfl

/-- `takeWhile` only keeps elements of the list. -/
theorem mem_takeWhile_mem (p : Nat → Bool) : ∀ (l : List Nat) (a : Nat),
    a ∈ l.takeWhile p → a ∈ l := by
  intro l
  induction l with
  | nil => intro a h; simpa using h
  | cons x xs ih =>
      intro a h
      rw [List.takeWhile_cons] at h
      by_cases hx : p x
      · rw [if_pos hx] at h
        rcases List.mem_cons.mp h with rfl | h2
        · exact List.mem_cons_self _ _
        · exact List.mem_cons_of_mem _ (ih a h2)
      · rw [if_neg hx] at h
        simp at h

/-- `take` only keeps elements of the list. -/
theorem mem_take_mem : ∀ (l : List Nat) (n : Nat) (a : Nat),
    a ∈ l.take n → a ∈ l := by
  intro l
  induction l with
  | nil => intro n a h; simpa using h
  | cons x xs ih =>
      intro n a h
      cases n with
      | zero => simp at h
      | succ m =>
          rw [List.take_succ_cons] at h
          rcases List.mem_cons.mp h with rfl | h2
          · exact List.mem_cons_self _ _
          · exact List.mem_cons_of_mem _ (ih m a h2)

/-- A successful `decode_component` run only appends bytes to `buf`, and
(on a slash-free component) every appended byte is neither NUL nor `/`:
literal bytes are not 0 (checked) nor 47 (slash-free input) and decoded
bytes are rejected when 0 or 47. -/
theorem decodeComponent_append : ∀ (n : Nat) (comp : List Nat),
    comp.length ≤ n → ∀ (buf out : List Nat),
    decodeComponent buf comp = some out →
    ∃ ext, out = buf ++ ext ∧
      (47 ∉ comp → ∀ b ∈ ext, b ≠ 0 ∧ b ≠ 47) := by
  intro n
  induction n with
  | zero =>
      intro comp hlen buf out h
      have hc : comp = [] := List.length_eq_zero.mp (Nat.le_zero.mp hlen)
      subst hc
      simp only [decodeComponent, Option.some.injEq] at h
      exact ⟨[], by simp [← h], by simp⟩
  | succ n ih =>
      intro comp hlen buf out h
      cases comp with
      | nil =>
          simp only [decodeComponent, Option.some.injEq] at h
          exact ⟨[], by simp [← h], by simp⟩
      | cons c rest =>
          unfold decodeComponent at h
          by_cases hc : c = 37
          · rw [if_pos hc] at h
            cases rest with
            | nil => simp at h
            | cons h1 rest2 =>
                cases rest2 with
                | nil => simp at h
                | cons l1 rest3 =>
                    cases hh : fromHex h1 with
                    | none => simp [hh] at h
                    | some hv =>
                        cases hl : fromHex l1 with
                        | none => simp [hh, hl] at h
                        | some lv =>
                            simp only [hh, hl] at h
                            by_cases hb : hv * 16 + lv = 0 ∨ hv * 16 + lv = 47
                            · rw [if_pos hb] at h
                              simp at h
                            · rw [if_neg hb] at h
                              obtain ⟨ext, hout, hext⟩ :=
                                ih rest3 (by simp at hlen ⊢; omega) _ _ h
                              refine ⟨(hv * 16 + lv) :: ext, ?_, ?_⟩
                              · rw [hout, List.append_assoc]
                                rfl
                              · intro h47 b hb2
                                rcases List.mem_cons.mp hb2 with rfl | hb3
                                · exact ⟨fun h0 => hb (Or.inl h0),
                                    fun h47b => hb (Or.inr h47b)⟩
                                · have h47r : (47 : Nat) ∉ rest3 :=
                                    fun hm => h47 (by simp [hm])
                                  exact hext h47r b hb3
          · rw [if_neg hc] at h
            by_cases hz : c = 0
            · rw [if_pos hz] at h
              simp at h
            · rw [if_neg hz] at h
              obtain ⟨ext, hout, hext⟩ :=
                ih rest (by simp at hlen ⊢; omega) _ _ h
              refine ⟨c :: ext, ?_, ?_⟩
              · rw [hout, List.append_assoc]
                rfl
              · intro h47 b hb2
                rcases List.mem_cons.mp hb2 with rfl | hb3
                · exact ⟨hz, fun hc47 => h47 (by simp [← hc47])⟩
                · exact hext (fun hm => h47 (List.mem_cons_of_mem _ hm)) b hb3

/-- `split` always yields at least one part. -/
theorem splitOnByte_ne_nil (sep : Nat) (l : List Nat) :
    splitOnByte sep l ≠ [] := by
  cases l with
  | nil => simp [splitOnByte]
  | cons x rest =>
      simp only [splitOnByte]
      by_cases hx : x = sep
      · rw [if_pos hx]
        simp
      · rw [if_neg hx]
        cases hr : splitOnByte sep rest with
        | nil => simp
        | cons y ys => simp

/-- No part produced by `split` contains the separator. -/
theorem splitOnByte_no_sep (sep : Nat) : ∀ (l : List Nat) (c : List Nat),
    c ∈ splitOnByte sep l → sep ∉ c := by
  intro l
  induction l with
  | nil =>
      intro c hc
      simp [splitOnByte] at hc
      subst hc
      simp
  | cons x rest ih =>
      intro c hc
      simp only [splitOnByte] at hc
      by_cases hx : x = sep
      · rw [if_pos hx] at hc
        rcases List.mem_cons.mp hc with rfl | h2
        · simp
        · exact ih c h2
      · rw [if_neg hx] at hc
        cases hr : splitOnByte sep rest with
        | nil => exact absurd hr (splitOnByte_ne_nil sep rest)
        | cons y ys =>
            rw [hr] at hc
            rcases List.mem_cons.mp hc with rfl | h2
            · intro hmem
              rcases List.mem_cons.mp hmem with hx2 | h3
              · exact hx hx2.symm
              · exact ih y (hr ▸ List.mem_cons_self _ _) h3
            · exact ih c (hr ▸ List.mem_cons_of_mem _ h2)

/-- A dot-dot component anywhere makes the component loop fail. -/
theorem processComps_dd : ∀ (comps : List (List Nat)) (buf : List Nat),
    (∃ c ∈ comps, c ∈ ddSpellings) → processComps buf comps = none := by
  intro comps
  induction comps with
  | nil =>
      rintro buf ⟨c, hc, _⟩
      cases hc
  | cons c0 rest ih =>
      rintro buf ⟨c, hc, hdd⟩
      rcases List.mem_cons.mp hc with rfl | hmem
      · have hdisj : ∀ x ∈ ddSpellings, x ∉ skipSpellings := by decide
        have hnotskip : c ∉ skipSpellings := hdisj c hdd
        simp [processComps, hnotskip, hdd]
      · simp only [processComps]
        by_cases hs : skipSpellings.contains c0
        · rw [if_pos hs]
          exact ih buf ⟨c, hmem, hdd⟩
        · rw [if_neg hs]
          by_cases hd2 : ddSpellings.contains c0
          · rw [if_pos hd2]
          · rw [if_neg hd2]
            cases hdec : decodeComponent
                (if 0 < buf.length then buf ++ [47] else buf) c0 with
            | none => simp [hdec]
            | some b2 =>
                simp only [hdec]
                exact ih b2 ⟨c, hmem, hdd⟩

/-- The component loop never makes the buffer start with `/`: separators
are only appended behind a non-empty buffer, and decoded bytes are
never `/`. -/
theorem processComps_head : ∀ (comps : List (List Nat)) (buf out : List Nat),
    (∀ c ∈ comps, 47 ∉ c) → buf.head? ≠ some 47 →
    processComps buf comps = some out → out.head? ≠ some 47 := by
  intro comps
  induction comps with
  | nil =>
      intro buf out _ hb h
      simp only [processComps, Option.some.injEq] at h
      exact h ▸ hb
  | cons c0 rest ih =>
      intro buf out h47 hb h
      simp only [processComps] at h
      by_cases hs : skipSpellings.contains c0
      · rw [if_pos hs] at h
        exact ih buf out (fun c hc => h47 c (List.mem_cons_of_mem _ hc)) hb h
      · rw [if_neg hs] at h
        by_cases hd2 : ddSpellings.contains c0
        · rw [if_pos hd2] at h
          exact absurd h (by simp)
        · rw [if_neg hd2] at h
          cases hdec : decodeComponent
              (if 0 < buf.length then buf ++ [47] else buf) c0 with
          | none =>
              rw [hdec] at h
              exact absurd h (by simp)
          | some b2 =>
              rw [hdec] at h
              have hc0 : (47 : Nat) ∉ c0 := h47 c0 (List.mem_cons_self _ _)
              obtain ⟨ext, hout, hext⟩ :=
                decodeComponent_append c0.length c0 (le_refl _) _ _ hdec
              have hb2 : b2.head? ≠ some 47 := by
                by_cases hbuf : 0 < buf.length
                · rw [if_pos hbuf] at hout
                  have hne : buf ≠ [] := by
                    cases buf
                    · simp at hbuf
                    · simp
                  rw [hout, List.append_assoc, head?_append_left _ _ hne]
                  exact hb
                · rw [if_neg hbuf] at hout
                  have hbe : buf = [] := by
                    cases buf
                    · rfl
                    · simp at hbuf
                  subst hbe
                  rw [hout, List.nil_append]
                  cases ext with
                  | nil => simp
                  | cons e es =>
                      simp only [List.head?]
                      intro hcon
                      have he : e = 47 := by simpa using hcon
                      exact (hext hc0 e (List.mem_cons_self _ _)).2 he
              exact ih b2 out
                (fun c hc => h47 c (List.mem_cons_of_mem _ hc)) hb2 h

/-- The hostname prelude never puts a `/` into the buffer: hosts with a
slash are rejected and the remaining steps only select substrings. -/
theorem hostBuf_no_slash (host strip : Option (List Nat)) (b0 : List Nat)
    (h : hostBuf host strip = some b0) : (47 : Nat) ∉ b0 := by
  cases host with
  | none => simp [hostBuf] at h
  | some hh =>
      simp only [hostBuf] at h
      by_cases hsl : hh.contains 47
      · rw [if_pos hsl] at h
        simp at h
      · rw [if_neg hsl] at h
        have hns : (47 : Nat) ∉ hh := by
          intro hm
          exact hsl (List.elem_iff.mpr hm)
        have hname : (47 : Nat) ∉ hh.takeWhile (fun c => c ≠ 58) :=
          fun hm => hns (mem_takeWhile_mem _ hh 47 hm)
        cases strip with
        | none =>
            simp only [Option.some.injEq] at h
            exact h ▸ hname
        | some suf =>
            dsimp only at h
            by_cases h1 : suf.length ≥ (hh.takeWhile (fun c => c ≠ 58)).length
            · rw [if_pos h1] at h
              simp at h
            · rw [if_neg h1] at h
              cases h2 : suf.isSuffixOf (hh.takeWhile (fun c => c ≠ 58)) with
              | false =>
                  rw [h2] at h
                  simp at h
              | true =>
                  rw [h2] at h
                  rw [if_neg (by simp : ¬ ((!true) = true))] at h
                  cases h3 : [46].isPrefixOf
                      ((hh.takeWhile (fun c => c ≠ 58)).drop
                        ((hh.takeWhile (fun c => c ≠ 58)).length -
                          suf.length - 1)) with
                  | false =>
                      rw [h3] at h
                      simp at h
                  | true =>
                      rw [h3, if_pos rfl] at h
                      have hb : (hh.takeWhile (fun c => c ≠ 58)).take
                          ((hh.takeWhile (fun c => c ≠ 58)).length -
                            suf.length - 1) = b0 := Option.some.inj h
                      intro hm
                      exact hname (mem_take_mem _ _ _ (hb ▸ hm))

/-- Claim C9: if `path()` returns `Ok(p)` then `p` is `settings.path`
joined with a relative sub-path (the sub-path never begins with `/`, so
the join appends under the base); any component spelling `..` —
including its percent-encoded variants — makes `path()` return `Err`;
and percent-decoding inside a slash-free component never produces a `/`
or NUL byte (inputs that would are rejected). -/
theorem C9_path_safety (mode : FMode) (reqPath : Option (List Nat))
    (suffix : List Nat) (host strip : Option (List Nat))
    (base : List Nat) :
    (∀ sub, pathSub mode reqPath suffix host strip = some sub →
      sub.head? ≠ some 47 ∧
      pathFn mode reqPath suffix host strip base =
        some (base ++ if sub.isEmpty then [] else 47 :: sub)) ∧
    (∀ comp ∈ splitOnByte 47 (effPath mode reqPath suffix),
      comp ∈ ddSpellings →
      pathSub mode reqPath suffix host strip = none ∧
      pathFn mode reqPath suffix host strip base = none) ∧
    (∀ buf comp out, (47 : Nat) ∉ comp →
      decodeComponent buf comp = some out →
      ∃ ext, out = buf ++ ext ∧ ∀ b ∈ ext, b ≠ 0 ∧ b ≠ 47) := by
  refine ⟨?_, ?_, ?_⟩
  · intro sub hsub
    have hhead : sub.head? ≠ some 47 := by
      simp only [pathSub] at hsub
      cases hb0 : (if mode = .with_hostname then hostBuf host strip
          else some []) with
      | none =>
          rw [hb0] at hsub
          simp at hsub
      | some b0 =>
          rw [hb0] at hsub
          dsimp only at hsub
          have hb0h : b0.head? ≠ some 47 := by
            by_cases hm : mode = .with_hostname
            · rw [if_pos hm] at hb0
              have h47 := hostBuf_no_slash host strip b0 hb0
              cases b0 with
              | nil => simp
              | cons x xs =>
                  simp only [List.head?]
                  intro hcon
                  apply h47
                  have : x = 47 := by simpa using hcon
                  simp [this]
            · rw [if_neg hm] at hb0
              have hbe : b0 = [] := by
                have := Option.some.inj hb0
                exact this.symm
              subst hbe
              simp
          cases hproc : processComps b0
              (splitOnByte 47 (effPath mode reqPath suffix)) with
          | none =>
              rw [hproc] at hsub
              simp at hsub
          | some buf =>
              rw [hproc] at hsub
              dsimp only at hsub
              by_cases hu : validUtf8 buf
              · rw [if_pos hu] at hsub
                have hbuf : buf = sub := Option.some.inj hsub
                subst hbuf
                exact processComps_head _ b0 buf
                  (fun c hc => splitOnByte_no_sep 47 _ c hc) hb0h hproc
              · rw [if_neg hu] at hsub
                simp at hsub
    refine ⟨hhead, ?_⟩
    simp only [pathFn, hsub, Option.map_some']
    congr 1
    simp only [rustJoin]
    rw [if_neg hhead]
    by_cases he : sub.isEmpty
    · rw [if_pos he, if_pos he]
      have hse : sub = [] := by simpa [List.isEmpty_iff] using he
      simp [hse]
    · rw [if_neg he, if_neg he]
  · intro comp hcm hdd
    have hnone : ∀ b0, processComps b0
        (splitOnByte 47 (effPath mode reqPath suffix)) = none :=
      fun b0 => processComps_dd _ b0 ⟨comp, hcm, hdd⟩
    have hps : pathSub mode reqPath suffix host strip = none := by
      simp only [pathSub]
      cases hb0 : (if mode = .with_hostname then hostBuf host strip
          else some []) with
      | none => simp
      | some b0 => simp [hnone b0]
    exact ⟨hps, by simp [pathFn, hps]⟩
  · intro buf comp out h47 hdec
    obtain ⟨ext, hout, hext⟩ :=
      decodeComponent_append comp.length comp (le_refl _) buf out hdec
    exact ⟨ext, hout, hext h47⟩

/-- Witness for C9_path_safety: a dot-dot request is rejected, and a
percent-encoded request resolves to a relative sub-path under the
base. -/
theorem C9_path_safety_witness :
    pathSub .relative_to_domain_root
        (some (bytesOfAscii "/a/../b")) [] none none = none ∧
    pathFn .relative_to_domain_root
        (some (bytesOfAscii "/dir/file%41.txt")) [] none none
        (bytesOfAscii "/www") =
      some (bytesOfAscii "/www" ++ 47 :: bytesOfAscii "dir/fileA.txt") := by
  constructor
  · exact ((C9_path_safety .relative_to_domain_root
      (some (bytesOfAscii "/a/../b")) [] none none []).2.1
      (bytesOfAscii "..") (by decide) (by decide)).1
  · have h2 := ((C9_path_safety .relative_to_domain_root
      (some (bytesOfAscii "/dir/file%41.txt")) [] none none
      (bytesOfAscii "/www")).1 (bytesOfAscii "dir/fileA.txt")
      (by decide)).2
    rw [if_neg (by decide)] at h2
    exact h2

end Swindon
